import Mathlib

/-!
Shallow embedding of the per-sample signal-conditioning primitives of
`src/q_lib/include/q/sfx.hpp` (namespace `cycfi::q`), together with proofs
of the specified properties.

Samples are modelled as exact rationals (or reals where the source uses
`std::tan`), idealizing IEEE `float` arithmetic.  Each stateful C++ functor
becomes a Lean structure holding its registers, and each `operator()`
becomes a pure step function returning the result paired with the updated
state, preserving the source's update order.
-/

/-! ## fast_downsample (sfx.hpp lines 28-39) -/

/-- State and step of `fast_downsample`: carry register `x` (initialized 0);
`operator()(s1, s2)` computes `out = x + s1/2`, then `x = s2/4`, then
returns `out + x`.  Result: (returned sample, new carry). -/
def fast_downsample (x s1 s2 : ℚ) : ℚ × ℚ :=
  let out := x + s1 / 2
  let x' := s2 / 4
  (out + x', x')

/-- Carry register after `n` calls of `fast_downsample` on the constant
pair `(c, c)`, starting from carry `x`. -/
def fast_downsample_carry (c x : ℚ) : ℕ → ℚ
  | 0 => x
  | n + 1 => (fast_downsample (fast_downsample_carry c x n) c c).2

/-! ## dynamic_lowpass (sfx.hpp lines 99-118) -/

/-- State of `dynamic_lowpass`: the single register `_y` (initialized 0). -/
structure dynamic_lowpass where
  y : ℚ
  deriving DecidableEq, Repr

/-- `dynamic_lowpass::operator()(s, a)`: `return _y += a * (s - _y);`. -/
def dynamic_lowpass.step (f : dynamic_lowpass) (s a : ℚ) : ℚ × dynamic_lowpass :=
  let y' := f.y + a * (s - f.y)
  (y', ⟨y'⟩)

/-- `dynamic_lowpass::operator()() const`: returns `_y`, state untouched. -/
def dynamic_lowpass.read (f : dynamic_lowpass) : ℚ × dynamic_lowpass :=
  (f.y, f)

/-! ## External collaborators (declared in `q/fx.hpp`, which is not part of
the sources; modelled from the spec, section 6). -/

/-- Modelled from the spec: `schmitt_trigger` (threshold comparator with
hysteresis, from `q/fx.hpp`, missing from the sources).  It maintains one
latched boolean and flips only when the value moves past the reference by
more than half the configured hysteresis width in the direction opposite
the last flip; otherwise it returns the previous latched value unchanged. -/
structure schmitt_trigger where
  hysteresis : ℚ
  y : Bool
  deriving DecidableEq, Repr

/-- Modelled from the spec: one comparison step of the `schmitt_trigger`. -/
def schmitt_trigger.step (c : schmitt_trigger) (value ref : ℚ) : Bool × schmitt_trigger :=
  if c.y = false ∧ ref + c.hysteresis / 2 < value then (true, { c with y := true })
  else if c.y = true ∧ value < ref - c.hysteresis / 2 then (false, { c with y := false })
  else (c.y, c)

/-- Modelled from the spec: `one_pole_lowpass` (from `q/fx.hpp`, missing
from the sources): a single exponential smoothing stage with a coefficient
`a` derived at construction from a cutoff frequency and the sampling rate.
The coefficient is kept abstract as a stored field. -/
structure one_pole_lowpass where
  a : ℚ
  y : ℚ
  deriving DecidableEq, Repr

/-- Modelled from the spec: `one_pole_lowpass::update`. -/
def one_pole_lowpass.step (lp : one_pole_lowpass) (s : ℚ) : ℚ × one_pole_lowpass :=
  let y' := lp.y + lp.a * (s - lp.y)
  (y', { lp with y := y' })

/-- Modelled from the spec: `peak_envelope_follower` (from `q/fx.hpp`,
missing from the sources): instantaneous rise, exponential decay toward
zero via a per-sample decay factor `r` derived at construction from a
decay duration and the sampling rate.  The factor is kept abstract as a
stored field. -/
structure peak_envelope_follower where
  r : ℚ
  y : ℚ
  deriving DecidableEq, Repr

/-- Modelled from the spec: `peak_envelope_follower::update`. -/
def peak_envelope_follower.step (e : peak_envelope_follower) (s : ℚ) : ℚ × peak_envelope_follower :=
  let d := e.y * e.r
  let y' := if d < s then s else d
  (y', { e with y := y' })

/-! ## zero_cross (sfx.hpp lines 126-139) -/

/-- State of `zero_cross`: the comparator member `_cmp` and the boolean
member `_state` (initialized 0, i.e. false). -/
structure zero_cross where
  cmp : schmitt_trigger
  state : Bool
  deriving DecidableEq, Repr

/-- `zero_cross(hysteresis)` constructor: seeds `_cmp` with the hysteresis
and leaves `_state` at its default `false`; the comparator's latch starts
false. -/
def zero_cross.init (hysteresis : ℚ) : zero_cross :=
  { cmp := { hysteresis := hysteresis, y := false }, state := false }

/-- `zero_cross::operator()(s)`: `return _cmp(s, 0);`.  The member
`_state` is not mentioned by the body. -/
def zero_cross.step (z : zero_cross) (s : ℚ) : Bool × zero_cross :=
  let p := z.cmp.step s 0
  (p.1, { z with cmp := p.2 })

/-- Driving `zero_cross` through a whole list of input samples. -/
def zero_cross.run (z : zero_cross) : List ℚ → zero_cross
  | [] => z
  | s :: rest => ((z.step s).2).run rest

/-! ## onset_detector (sfx.hpp lines 157-188) -/

/-- State of `onset_detector`: sensitivity, the internal low-pass `_lp`,
comparator `_comp`, envelope follower `_env`, and the latch `_val`
(initialized 0). -/
structure onset_detector where
  sensitivity : ℚ
  lp : one_pole_lowpass
  comp : schmitt_trigger
  env : peak_envelope_follower
  val : ℚ
  deriving DecidableEq, Repr

/-- `onset_detector::operator()(s)`:
`abs_s = abs(s); env = _env(abs_s); lp = _lp(env);
if (_comp(env * _sensitivity, lp)) return _val = max(_val, abs_s);
_val = 0; return 0;`. -/
def onset_detector.step (o : onset_detector) (s : ℚ) : ℚ × onset_detector :=
  let abs_s := |s|
  let pe := o.env.step abs_s
  let pl := o.lp.step pe.1
  let pc := o.comp.step (pe.1 * o.sensitivity) pl.1
  if pc.1 then
    let v := max o.val abs_s
    (v, { o with env := pe.2, lp := pl.2, comp := pc.2, val := v })
  else
    (0, { o with env := pe.2, lp := pl.2, comp := pc.2, val := 0 })

/-- `onset_detector::operator()() const`: returns `_val`, state untouched. -/
def onset_detector.read (o : onset_detector) : ℚ × onset_detector :=
  (o.val, o)

/-! ## dynamic_smoother (sfx.hpp lines 56-91).  Real-valued because the
construction uses `std::tan`. -/

/-- State of `dynamic_smoother`: derived configuration `sense`, `wc`, `g0`
and the two cascaded registers `low1`, `low2` (initialized 0). -/
structure dynamic_smoother where
  sense : ℝ
  wc : ℝ
  g0 : ℝ
  low1 : ℝ
  low2 : ℝ

/-- The base coefficient computed from the normalized cutoff `wc`:
`gc = tan(pi * wc); g0 = 2 * gc / (1 + gc)`. -/
noncomputable def g0_of_wc (wc : ℝ) : ℝ :=
  2 * Real.tan (Real.pi * wc) / (1 + Real.tan (Real.pi * wc))

/-- `dynamic_smoother(base, sensitivity, sps)` constructor:
`sense = sensitivity * 4; wc = base / sps;
gc = tan(pi * wc); g0 = 2 * gc / (1 + gc)`; registers start at 0. -/
noncomputable def dynamic_smoother.make (base sensitivity sps : ℝ) : dynamic_smoother :=
  { sense := sensitivity * 4
    wc := base / sps
    g0 := g0_of_wc (base / sps)
    low1 := 0
    low2 := 0 }

/-- The effective per-sample coefficient
`g = min(g0 + sense * abs(bandz), 1.0f)` used inside
`dynamic_smoother::operator()`. -/
noncomputable def dynamic_smoother.coeff (f : dynamic_smoother) (bandz : ℝ) : ℝ :=
  min (f.g0 + f.sense * |bandz|) 1

/-- `dynamic_smoother::operator()(s)`:
`lowlz = low1; low2z = low2; bandz = lowlz - low2z;
g = min(g0 + sense * abs(bandz), 1.0f);
low1 = lowlz + g * (s - lowlz); low2 = low2z + g * (low1 - low2z);
return low2z;`. -/
noncomputable def dynamic_smoother.step (f : dynamic_smoother) (s : ℝ) : ℝ × dynamic_smoother :=
  let lowlz := f.low1
  let low2z := f.low2
  let bandz := lowlz - low2z
  let g := f.coeff bandz
  let low1' := lowlz + g * (s - lowlz)
  let low2' := low2z + g * (low1' - low2z)
  (low2z, { f with low1 := low1', low2 := low2' })

/-- `dynamic_smoother::base_frequency(base, sps)`:
`wc = base / sps; gc = tan(pi * wc); g0 = 2 * gc / (1 + gc)`;
nothing else is written. -/
noncomputable def dynamic_smoother.base_frequency (f : dynamic_smoother) (base sps : ℝ) : dynamic_smoother :=
  { f with wc := base / sps, g0 := g0_of_wc (base / sps) }

/-! ## Shared helper lemmas -/

/-- The value `onset_detector::operator()` returns is exactly the value
left in `_val` (both branches assign `_val` and return it). -/
theorem onset_step_val_eq (o : onset_detector) (s : ℚ) :
    (o.step s).2.val = (o.step s).1 := by
  by_cases h :
    (o.comp.step ((o.env.step |s|).1 * o.sensitivity) ((o.lp.step (o.env.step |s|).1).1)).1 <;>
  simp [onset_detector.step, h]

/-- A convex update `x + g * (s - x)` with `g` in `[0, 1]` stays within any
bound that contains both `x` and `s`. -/
theorem convex_step_abs_le {x s g B : ℝ} (hg0 : 0 ≤ g) (hg1 : g ≤ 1)
    (hx : |x| ≤ B) (hs : |s| ≤ B) : |x + g * (s - x)| ≤ B := by
  rw [abs_le] at *
  constructor
  · nlinarith [mul_nonneg (sub_nonneg.2 hg1) (sub_nonneg.2 hx.1), mul_nonneg hg0 (sub_nonneg.2 hs.1)]
  · nlinarith [mul_nonneg (sub_nonneg.2 hg1) (sub_nonneg.2 hx.2), mul_nonneg hg0 (sub_nonneg.2 hs.2)]

/-- For a normalized cutoff `wc` in `(0, 1/4]` the base coefficient
`g0 = 2 tan(pi wc) / (1 + tan(pi wc))` lies in `(0, 1]`. -/
theorem g0_of_wc_mem_Ioc {wc : ℝ} (h0 : 0 < wc) (h4 : wc ≤ 1 / 4) :
    0 < g0_of_wc wc ∧ g0_of_wc wc ≤ 1 := by
  have hpi := Real.pi_pos
  have hx0 : 0 < Real.pi * wc := by positivity
  have hx2 : Real.pi * wc < Real.pi / 2 := by nlinarith
  have ht0 : 0 < Real.tan (Real.pi * wc) := Real.tan_pos_of_pos_of_lt_pi_div_two hx0 hx2
  have hle : Real.pi * wc ≤ Real.pi / 4 := by nlinarith
  have ht1 : Real.tan (Real.pi * wc) ≤ 1 := by
    have hmem1 : Real.pi * wc ∈ Set.Ioo (-(Real.pi / 2)) (Real.pi / 2) :=
      ⟨by linarith, hx2⟩
    have hmem2 : Real.pi / 4 ∈ Set.Ioo (-(Real.pi / 2)) (Real.pi / 2) :=
      ⟨by linarith, by linarith⟩
    have := Real.strictMonoOn_tan.monotoneOn hmem1 hmem2 hle
    rwa [Real.tan_pi_div_four] at this
  unfold g0_of_wc
  constructor
  · exact div_pos (by linarith) (by linarith)
  · rw [div_le_one (by linarith)]
    linarith

/-! ## Claim theorems -/

/-- C1: for every state of the Self-Modulating Smoother and every bandpass
estimate, the effective per-sample coefficient
`g = min(g0 + sense * abs(bandz), 1)` computed inside
`dynamic_smoother::operator()` is at most 1, no matter how large the
bandpass magnitude is. -/
theorem dynamic_smoother_coeff_le_one :
    ∀ (f : dynamic_smoother) (bandz : ℝ), f.coeff bandz ≤ 1 := by
  intro f bandz
  exact min_le_right _ _

/-- C2: `fast_downsample` returns `x + s1/2 + s2/4` and leaves the carry
equal to `s2/4`, for every carry `x` and pair `(s1, s2)`; in particular
from a zero carry the pair `(1/2, 1/2)` yields output `3/8` and carry
`1/8`, and a following pair `(1/2, 1/2)` yields output `1/2`. -/
theorem fast_downsample_formula :
    (∀ x s1 s2 : ℚ, fast_downsample x s1 s2 = (x + s1 / 2 + s2 / 4, s2 / 4)) ∧
    fast_downsample 0 (1/2) (1/2) = (3/8, 1/8) ∧
    fast_downsample (1/8) (1/2) (1/2) = (1/2, 1/8) := by
  refine ⟨fun x s1 s2 => rfl, ?_, ?_⟩ <;> norm_num [fast_downsample]

/-- C3: `onset_detector::operator()(s)` computes `abs(s)`, feeds it through
the envelope follower and the low-pass, and: if the comparator on
`(envelope * sensitivity, lowpassed)` reports above, the latch becomes
`max` of the previous latch and `abs(s)` and is returned; otherwise the
latch is set to exactly 0 and 0 is returned. -/
theorem onset_detector_step_spec :
    ∀ (o : onset_detector) (s : ℚ),
      (o.step s).1 =
        (if (o.comp.step ((o.env.step |s|).1 * o.sensitivity)
              ((o.lp.step (o.env.step |s|).1).1)).1
         then max o.val |s| else 0) ∧
      (o.step s).2.val = (o.step s).1 := by
  intro o s
  refine ⟨?_, onset_step_val_eq o s⟩
  by_cases h :
    (o.comp.step ((o.env.step |s|).1 * o.sensitivity) ((o.lp.step (o.env.step |s|).1).1)).1 <;>
  simp [onset_detector.step, h]

/-- C4: `dynamic_smoother::operator()` returns `low2` as it was before this
sample's update (a one-sample output lag), while the stored registers are
updated to the new first- and second-stage values. -/
theorem dynamic_smoother_output_lag :
    ∀ (f : dynamic_smoother) (s : ℝ),
      (f.step s).1 = f.low2 ∧
      (f.step s).2.low1 = f.low1 + f.coeff (f.low1 - f.low2) * (s - f.low1) ∧
      (f.step s).2.low2 = f.low2 + f.coeff (f.low1 - f.low2) *
        ((f.low1 + f.coeff (f.low1 - f.low2) * (s - f.low1)) - f.low2) := by
  intro f s
  exact ⟨rfl, rfl, rfl⟩

/-- C5: `dynamic_lowpass::operator()(s, a)` sets the state to
`state + a * (s - state)` and returns the new state; with coefficient 1 it
returns exactly the input, with coefficient 0 it returns the prior state. -/
theorem dynamic_lowpass_update_contract :
    ∀ (f : dynamic_lowpass) (s a : ℚ),
      f.step s a = (f.y + a * (s - f.y), ⟨f.y + a * (s - f.y)⟩) ∧
      (f.step s 1).1 = s ∧
      (f.step s 0).1 = f.y := by
  intro f s a
  refine ⟨rfl, ?_, ?_⟩
  · show f.y + 1 * (s - f.y) = s
    ring
  · show f.y + 0 * (s - f.y) = f.y
    ring

/-- C6: feeding `fast_downsample` the constant pair `(c, c)` repeatedly
makes the output exactly `c` on every call after the first (the carry has
stabilized at `c/4` after one call). -/
theorem fast_downsample_constant_pairs :
    ∀ (c x : ℚ) (n : ℕ), 1 ≤ n →
      (fast_downsample (fast_downsample_carry c x n) c c).1 = c := by
  intro c x n hn
  match n, hn with
  | (m + 1), _ =>
    have h : fast_downsample_carry c x (m + 1) = c / 4 := rfl
    rw [h]
    show c / 4 + c / 2 + c / 4 = c
    ring

theorem fast_downsample_constant_pairs_witness :
    1 ≤ 1 ∧ (fast_downsample (fast_downsample_carry 1 5 1) 1 1).1 = 1 :=
  ⟨Nat.le_refl 1, fast_downsample_constant_pairs 1 5 1 (Nat.le_refl 1)⟩

/-- C7: `dynamic_smoother::base_frequency(base, sps)` recomputes `wc` and
`g0` (via `gc = tan(pi wc)`, `g0 = 2 gc / (1 + gc)`) and leaves the
`low1`/`low2` feedback registers (and `sense`) exactly unchanged. -/
theorem dynamic_smoother_base_frequency_frame :
    ∀ (f : dynamic_smoother) (base sps : ℝ),
      (f.base_frequency base sps).wc = base / sps ∧
      (f.base_frequency base sps).g0 =
        2 * Real.tan (Real.pi * (base / sps)) / (1 + Real.tan (Real.pi * (base / sps))) ∧
      (f.base_frequency base sps).low1 = f.low1 ∧
      (f.base_frequency base sps).low2 = f.low2 ∧
      (f.base_frequency base sps).sense = f.sense := by
  intro f base sps
  exact ⟨rfl, rfl, rfl, rfl, rfl⟩

/-- C8 counterexample: with base frequency 2 and sampling rate 5 the
normalized cutoff `2/5` is strictly between 0 and `1/2` (the base
frequency is strictly below half the sampling rate), yet the base
coefficient `g0` computed by the constructor exceeds 1, refuting the
claim that every derived coefficient lies in `(0, 1]` throughout that
range. -/
theorem dynamic_smoother_g0_gt_one_cex :
    (0:ℝ) < 2 ∧ (2:ℝ) < 5 / 2 ∧ 1 < (dynamic_smoother.make 2 (1/2) 5).g0 := by
  refine ⟨by norm_num, by norm_num, ?_⟩
  have hmk : (dynamic_smoother.make 2 (1/2) 5).g0 = g0_of_wc (2/5) := by
    norm_num [dynamic_smoother.make]
  rw [hmk]
  have hpi := Real.pi_pos
  have h1 : Real.tan (Real.pi / 4) < Real.tan (Real.pi * (2/5)) :=
    Real.tan_lt_tan_of_nonneg_of_lt_pi_div_two (by positivity) (by linarith) (by linarith)
  rw [Real.tan_pi_div_four] at h1
  unfold g0_of_wc
  rw [lt_div_iff₀ (by linarith)]
  linarith

/-- C8 (amended): derived coefficients of the Self-Modulating Smoother lie
in `(0, 1]` when the base cutoff frequency is in `(0, sps/4]` (not for the
whole range below `sps/2`); and for any state whose `g0` and `sense` are
nonnegative, one update step keeps both registers within every bound `B`
containing the registers and the input sample. -/
theorem dynamic_smoother_coefficients_amended :
    (∀ base sensitivity sps : ℝ, 0 < base → 0 < sps → base ≤ sps / 4 →
      0 < (dynamic_smoother.make base sensitivity sps).g0 ∧
      (dynamic_smoother.make base sensitivity sps).g0 ≤ 1) ∧
    (∀ (f : dynamic_smoother) (s B : ℝ), 0 ≤ f.g0 → 0 ≤ f.sense →
      |f.low1| ≤ B → |f.low2| ≤ B → |s| ≤ B →
      |(f.step s).2.low1| ≤ B ∧ |(f.step s).2.low2| ≤ B) := by
  constructor
  · intro base sensitivity sps hb hsps hb4
    have hwc0 : 0 < base / sps := div_pos hb hsps
    have hwc4 : base / sps ≤ 1 / 4 := by
      rw [div_le_div_iff₀ hsps (by norm_num)]
      linarith
    have hg := g0_of_wc_mem_Ioc hwc0 hwc4
    exact hg
  · intro f s B hg0 hsense h1 h2 hs
    have hgnn : 0 ≤ f.coeff (f.low1 - f.low2) :=
      le_min (add_nonneg hg0 (mul_nonneg hsense (abs_nonneg _))) zero_le_one
    have hgle : f.coeff (f.low1 - f.low2) ≤ 1 := min_le_right _ _
    have hl1 : |f.low1 + f.coeff (f.low1 - f.low2) * (s - f.low1)| ≤ B :=
      convex_step_abs_le hgnn hgle h1 hs
    have hl2 : |f.low2 + f.coeff (f.low1 - f.low2) *
        ((f.low1 + f.coeff (f.low1 - f.low2) * (s - f.low1)) - f.low2)| ≤ B :=
      convex_step_abs_le hgnn hgle h2 hl1
    exact ⟨hl1, hl2⟩

theorem dynamic_smoother_coefficients_amended_witness :
    (0 < (dynamic_smoother.make 1 (1/2) 8).g0 ∧
      (dynamic_smoother.make 1 (1/2) 8).g0 ≤ 1) ∧
    (|((dynamic_smoother.mk 2 0 (1/2) 0 0).step 1).2.low1| ≤ 1 ∧
      |((dynamic_smoother.mk 2 0 (1/2) 0 0).step 1).2.low2| ≤ 1) :=
  ⟨dynamic_smoother_coefficients_amended.1 1 (1/2) 8
      (by norm_num) (by norm_num) (by norm_num),
    dynamic_smoother_coefficients_amended.2 (dynamic_smoother.mk 2 0 (1/2) 0 0) 1 1
      (by norm_num) (by norm_num) (by simp) (by simp) (by norm_num)⟩

/-- C9: the no-argument read accessors of `dynamic_lowpass` and
`onset_detector` return the stored register (`_y`, resp. `_val`) and leave
the state untouched; moreover after a mutating call, the read accessor
returns exactly the value that call returned (the last latched/returned
value). -/
theorem read_accessors_frame :
    ∀ (f : dynamic_lowpass) (o : onset_detector) (s a : ℚ),
      f.read = (f.y, f) ∧
      o.read = (o.val, o) ∧
      ((f.step s a).2).read.1 = (f.step s a).1 ∧
      ((o.step s).2).read.1 = (o.step s).1 := by
  intro f o s a
  exact ⟨rfl, rfl, rfl, onset_step_val_eq o s⟩

/-- C10: the `_state` member of `zero_cross` is never written by the
per-sample call (over any input sequence it keeps its value, which is
`false` from construction), and the call's result is exactly the
comparator's answer for the input compared against reference 0. -/
theorem zero_cross_shadow_state :
    (∀ (z : zero_cross) (inputs : List ℚ), (z.run inputs).state = z.state) ∧
    (∀ hy : ℚ, (zero_cross.init hy).state = false) ∧
    (∀ (z : zero_cross) (s : ℚ),
      (z.step s).1 = (z.cmp.step s 0).1 ∧
      (z.step s).2.cmp = (z.cmp.step s 0).2 ∧
      (z.step s).2.state = z.state) := by
  refine ⟨?_, fun _ => rfl, fun z s => ⟨rfl, rfl, rfl⟩⟩
  intro z inputs
  induction inputs generalizing z with
  | nil => rfl
  | cons s rest ih => exact ih ((z.step s).2)
